import Mathlib

/-!
Shallow embedding of `stats_log_consolidation/index.js` (log consolidation
pipeline).  The object store (AWS S3) is modelled as an explicit `Store`
value; the promise chains become pure functions returning
`Except Err _` together with the updated store and a trace of the
mutating store calls (`put`, batch delete).  All string manipulation is
done on `String.data` character lists so everything is executable and
decidable.
-/

namespace StatsLogConsolidation

/-! ## JS string helpers -/

/-- A character matched by an unescaped `.` in a JavaScript regex
(without the `s` flag): anything except a line terminator. -/
def dotChar (c : Char) : Bool :=
  !(c == '\n' || c == '\r' || c == '\u2028' || c == '\u2029')

/-- Lower-casing as used by `String.prototype.toLowerCase` (ASCII part,
which is all the source compares). -/
def jsToLower (s : String) : String :=
  String.mk (s.data.map Char.toLower)

/-- `a.startsWith(b)` on JS strings. -/
def jsStartsWith (s pre : String) : Bool :=
  pre.data.isPrefixOf s.data

/-! ## The fragment-name regex

`/^log\/(tbcd....)\/((\d{4})(\d{2})(\d{2}))T(\d{6}(\.\d{3,6}))?Z?.log/i`

Group 1 (`tbcd....`) is the loader id, group 2 the 8-digit date,
groups 3-5 year/month/day.  Note that inside the optional group 6 the
fractional part `(\.\d{3,6})` is *not* optional, and the `.` before
`log` is an unescaped any-character.  The embedding reproduces exactly
this behaviour: the boolean acceptance of a backtracking regex engine
is the existence of some way to match, which the disjunctions below
enumerate (the captures used by the caller all come from the
fixed-width prefix, so they do not depend on the choice). -/

/-- `.log` (an arbitrary non-terminator character followed by `log`,
case-insensitively); the regex has no `$`, so anything may follow. -/
def dotLog : List Char → Bool
  | c1 :: c2 :: c3 :: c4 :: _ =>
      dotChar c1 && (c2.toLower == 'l') && (c3.toLower == 'o') && (c4.toLower == 'g')
  | _ => false

/-- `Z?.log` — with or without the optional `Z`. -/
def zDotLog (r : List Char) : Bool :=
  (match r with
   | z :: rest => (z.toLower == 'z') && dotLog rest
   | [] => false) || dotLog r

/-- Consume exactly `n` digits (`\d{n}`), returning the rest. -/
def digitsN : Nat → List Char → Option (List Char)
  | 0, r => some r
  | _ + 1, [] => none
  | n + 1, c :: r => if c.isDigit then digitsN n r else none

/-- `\d{k}` followed by `Z?.log`. -/
def fracThen (k : Nat) (r : List Char) : Bool :=
  match digitsN k r with
  | some rest => zDotLog rest
  | none => false

/-- `(\d{6}(\.\d{3,6}))?Z?.log` — the part of the regex after the `T`.
The fractional seconds are mandatory inside group 6. -/
def timeTail (r : List Char) : Bool :=
  zDotLog r ||
  (match digitsN 6 r with
   | some ('.' :: r2) => fracThen 3 r2 || fracThen 4 r2 || fracThen 5 r2 || fracThen 6 r2
   | _ => false)

/-- The fields captured by `nameRe.exec` that `partitionByDays` uses:
`parse[1]` (tbcd), `parse[2]` (date), `parse[3..5]` (year, month, day). -/
structure LogParse where
  tb : String
  date : String
  year : String
  month : String
  day : String
deriving DecidableEq

/-- `nameRe.exec(item)` restricted to the captures the code consumes.
Returns `none` exactly when the regex does not match (the
`parse.length >= MINLENGTH` check in the source is always true on a
successful match, since `exec` always returns all 7 capture slots). -/
def parseLogName (key : String) : Option LogParse :=
  match key.data with
  | l :: o :: g :: s1 :: t :: b :: c :: d :: w1 :: w2 :: w3 :: w4 :: s2 ::
      y1 :: y2 :: y3 :: y4 :: m1 :: m2 :: d1 :: d2 :: tc :: tl =>
    if (l.toLower == 'l') && (o.toLower == 'o') && (g.toLower == 'g') && (s1 == '/')
        && (t.toLower == 't') && (b.toLower == 'b') && (c.toLower == 'c') && (d.toLower == 'd')
        && dotChar w1 && dotChar w2 && dotChar w3 && dotChar w4 && (s2 == '/')
        && y1.isDigit && y2.isDigit && y3.isDigit && y4.isDigit
        && m1.isDigit && m2.isDigit && d1.isDigit && d2.isDigit
        && (tc.toLower == 't') && timeTail tl then
      some { tb := String.mk [t, b, c, d, w1, w2, w3, w4],
             date := String.mk [y1, y2, y3, y4, m1, m2, d1, d2],
             year := String.mk [y1, y2, y3, y4],
             month := String.mk [m1, m2],
             day := String.mk [d1, d2] }
    else none
  | _ => none

/-! ## The day partitioner -/

/-- One element of the list produced by `partitionByDays` (the DayGroup
of the spec); `logKeys` are the member fragment keys, `key` the
consolidated key `log/yyyy/mm/tbcdxxxx-dd.log`. -/
structure DailyLogInfo where
  year : String
  month : String
  day : String
  logKeys : List String
  tb : String
  key : String
deriving DecidableEq

/-- The loop body of `partitionByDays`: `currentDate` (initially `-1`,
modelled as `none`), the open group `dailyLogInfo` and the accumulator
`listOfDailyLogInfo` threaded explicitly; on a new day the old group is
flushed and the fresh group (whose `logKeys` starts at `[]`) receives
the item by the `push` that ends the loop body; at the end the
still-open group is flushed. -/
def partitionGo (currentDate : Option String) (cur : Option DailyLogInfo)
    (acc : List DailyLogInfo) : List String → List DailyLogInfo
  | [] => acc ++ cur.toList
  | item :: rest =>
    match parseLogName item with
    | none => partitionGo currentDate cur acc rest
    | some p =>
      if currentDate = some p.date then
        partitionGo currentDate
          (cur.map (fun g => ⟨g.year, g.month, g.day, g.logKeys ++ [item], g.tb, g.key⟩))
          acc rest
      else
        partitionGo (some p.date)
          (some ⟨p.year, p.month, p.day, [item], p.tb,
                 "log/" ++ p.year ++ "/" ++ p.month ++ "/" ++ p.tb ++ "-" ++ p.day ++ ".log"⟩)
          (acc ++ cur.toList) rest

/-- `partitionByDays(listOfLogs)` — group the listed keys by day. -/
def partitionByDays (listOfLogs : List String) : List DailyLogInfo :=
  partitionGo none none [] listOfLogs

/-! ## The store model -/

/-- Errors a store call can reject with.  `noSuchKey` corresponds to an
S3 error with `code === 'NoSuchKey'`; `getError` is any other read
failure; `putError` / `deleteError` are write/delete rejections. -/
inductive Err where
  | noSuchKey (key : String)
  | getError (key : String)
  | putError (key : String)
  | deleteError
deriving DecidableEq

/-- Mutating store calls issued by the pipeline. -/
inductive Event where
  | put (key body : String)
  | deleteObjects (keys : List String)
deriving DecidableEq

/-- The object store (bucket `acm-stats`) plus injected failures:
`getErrors` are keys whose `getObject` rejects with a non-`NoSuchKey`
error, `decodeErrors` keys whose `Body.toString` throws (mapped to the
exception text), `putErrors` keys whose `putObject` rejects, and
`deleteErrors` makes `deleteObjects` reject. -/
structure Store where
  objects : List (String × String)
  getErrors : List String
  decodeErrors : List (String × String)
  putErrors : List String
  deleteErrors : Bool
deriving DecidableEq

/-- `s3.getObject` (body as text). -/
def getObject (s : Store) (key : String) : Except Err String :=
  if s.getErrors.contains key then .error (.getError key)
  else
    match s.objects.lookup key with
    | some body => .ok body
    | none => .error (.noSuchKey key)

/-- `s3.putObject` — full replace; the attempted call is traced whether
or not it succeeds. -/
def putObject (s : Store) (key body : String) :
    Except Err Unit × Store × List Event :=
  if s.putErrors.contains key then
    (.error (.putError key), s, [.put key body])
  else
    (.ok (), { s with objects := (key, body) :: s.objects.filter (fun kv => !(kv.1 == key)) },
     [.put key body])

/-- `s3.deleteObjects` — one batch request for the whole key list. -/
def deleteObjects (s : Store) (keys : List String) :
    Except Err Unit × Store × List Event :=
  if s.deleteErrors then
    (.error .deleteError, s, [.deleteObjects keys])
  else
    (.ok (), { s with objects := s.objects.filter (fun kv => !(keys.contains kv.1)) },
     [.deleteObjects keys])

/-! ## readFile and the sequential walkers -/

/-- The trailing-newline fixup inside `readFile`: JS
`if (logData && logData.charAt(logData.length - 1) !== '\n')` — note
that an empty string is falsy, so nothing is appended to it. -/
def ensureNewline (logData : String) : String :=
  if logData == "" then logData
  else if logData.data.getLast? == some '\n' then logData
  else logData ++ "\n"

/-- `readFile(key)`: `getObject` then `Body.toString('ascii')` inside a
`try`; a decoding exception is swallowed and replaced by the synthesized
line, so the promise still resolves. -/
def readFile (s : Store) (key : String) : Except Err String :=
  match getObject s key with
  | .error e => .error e
  | .ok body =>
    match s.decodeErrors.lookup key with
    | some ex => .ok ("Exception reading log (" ++ key ++ "): " ++ ex ++ "\n")
    | none => .ok (ensureNewline body)

/-- `walkListWithPromises(list, fn)` for a read-only `fn` (as used by
`readLogsForDay`): call `fn` on each item in turn, collecting results,
rejecting with the first error. -/
def walkListWithPromises {α β : Type} (list : List α) (fn : α → Except Err β) :
    Except Err (List β) :=
  match list with
  | [] => .ok []
  | x :: xs =>
    match fn x with
    | .error e => .error e
    | .ok b =>
      match walkListWithPromises xs fn with
      | .error e => .error e
      | .ok bs => .ok (b :: bs)

/-- `walkListWithPromises(list, fn)` for a store-mutating `fn` (as used
by `consolidateDailyLogs` and `processTbLoaderList`): strictly
sequential, fail-fast; the store state and the trace of calls made
before (and during) a failure are kept. -/
def walkListSt {α β : Type} (fn : α → Store → Except Err β × Store × List Event) :
    List α → Store → Except Err (List β) × Store × List Event
  | [], s => (.ok [], s, [])
  | x :: xs, s =>
    match fn x s with
    | (.error e, s1, ev1) => (.error e, s1, ev1)
    | (.ok b, s1, ev1) =>
      match walkListSt fn xs s1 with
      | (.ok bs, s2, ev2) => (.ok (b :: bs), s2, ev1 ++ ev2)
      | (.error e, s2, ev2) => (.error e, s2, ev1 ++ ev2)

/-! ## The daily merger -/

/-- `readLogsForDay(dailyLogInfo)`: read every member fragment in order
and join the contents (`logData.join('')`), giving the `log` field. -/
def readLogsForDay (s : Store) (g : DailyLogInfo) : Except Err String :=
  match walkListWithPromises g.logKeys (readFile s) with
  | .ok logData => .ok (String.join logData)
  | .error e => .error e

/-- `readPriorConsolidation(dailyLogInfo)`: read any existing
consolidated object at `g.key`; `NoSuchKey` means no prior log
(`priorLog = ''`), every other error is rethrown. -/
def readPriorConsolidation (s : Store) (g : DailyLogInfo) : Except Err String :=
  match readFile s g.key with
  | .ok data => .ok data
  | .error (.noSuchKey _) => .ok ""
  | .error e => .error e

/-- `writeConsolidatedLog(dailyLogInfo)`: write
`(priorLog || '') + log` to the consolidated key, resolving with the
group on success. -/
def writeConsolidatedLog (s : Store) (g : DailyLogInfo) (log priorLog : String) :
    Except Err DailyLogInfo × Store × List Event :=
  match putObject s g.key ((if priorLog == "" then "" else priorLog) ++ log) with
  | (.ok _, s1, ev) => (.ok g, s1, ev)
  | (.error e, s1, ev) => (.error e, s1, ev)

/-- `consolidateDailyLog(dailyLogInfo)`: read the member fragments, the
prior consolidation, then write the merged log. -/
def consolidateDailyLog (g : DailyLogInfo) (s : Store) :
    Except Err DailyLogInfo × Store × List Event :=
  match readLogsForDay s g with
  | .error e => (.error e, s, [])
  | .ok log =>
    match readPriorConsolidation s g with
    | .error e => (.error e, s, [])
    | .ok priorLog => writeConsolidatedLog s g log priorLog

/-- `consolidateDailyLogs(listOfDailyLogInfo)`. -/
def consolidateDailyLogs (listOfDailyLogInfo : List DailyLogInfo) (s : Store) :
    Except Err (List DailyLogInfo) × Store × List Event :=
  walkListSt consolidateDailyLog listOfDailyLogInfo s

/-- `removeLogItems(list)`: one batch `deleteObjects` for the whole
list, resolving with `0`. -/
def removeLogItems (list : List String) (s : Store) :
    Except Err Nat × Store × List Event :=
  match deleteObjects s list with
  | (.ok _, s1, ev) => (.ok 0, s1, ev)
  | (.error e, s1, ev) => (.error e, s1, ev)

/-! ## Listings -/

/-- The characters of a key up to and including the first `/`, if any
(used to compute `CommonPrefixes` for a `Delimiter: '/'` listing). -/
def slashSeg : List Char → Option (List Char)
  | [] => none
  | c :: r => if c == '/' then some ['/'] else (slashSeg r).map (fun l => c :: l)

/-- First-occurrence deduplication (S3 reports each common prefix
once). -/
def dedupAcc (seen : List String) : List String → List String
  | [] => []
  | x :: xs => if seen.contains x then dedupAcc seen xs else x :: dedupAcc (x :: seen) xs

/-- The `CommonPrefixes` of `listObjectsV2({Prefix: root, Delimiter: '/'})`,
derived from the stored objects. -/
def commonPrefixList (objs : List (String × String)) (root : String) : List String :=
  dedupAcc []
    (objs.filterMap (fun kv =>
      if jsStartsWith kv.1 root then
        (slashSeg (kv.1.data.drop root.data.length)).map
          (fun seg => String.mk (root.data ++ seg))
      else none))

/-- `getTbLoaderList()`: the common prefixes under `log/`, filtered by
`item.toLowerCase().startsWith('log/tbcd')`. -/
def getTbLoaderList (s : Store) : List String :=
  (commonPrefixList s.objects "log/").filter
    (fun p => jsStartsWith (jsToLower p) "log/tbcd")

/-- `getLogFileList(tbcd)`: the `Contents` keys of
`listObjectsV2({Prefix: tbcd, Delimiter: '/'})` — every stored key under
the prefix with no further `/`, in store (listing) order. -/
def getLogFileList (s : Store) (tbcd : String) : List String :=
  (s.objects.map (fun kv => kv.1)).filter
    (fun k => jsStartsWith k tbcd && !((k.data.drop tbcd.data.length).contains '/'))

/-! ## Per-loader processing and the handler -/

/-- `processTbLoader(tbcd)`: list the log files, partition them by day,
consolidate each day, and then — after all days succeeded — remove
**every** listed key (`keysToRemove` is the full listing, captured
before partitioning). -/
def processTbLoader (tbcd : String) (s : Store) :
    Except Err Nat × Store × List Event :=
  let logFileList := getLogFileList s tbcd
  let keysToRemove := logFileList
  match consolidateDailyLogs (partitionByDays logFileList) s with
  | (.error e, s1, ev) => (.error e, s1, ev)
  | (.ok _, s1, ev) =>
    match removeLogItems keysToRemove s1 with
    | (r, s2, ev2) => (r, s2, ev ++ ev2)

/-- `processTbLoaderList(list)`. -/
def processTbLoaderList (list : List String) (s : Store) :
    Except Err (List Nat) × Store × List Event :=
  walkListSt processTbLoader list s

/-- `exports.handler`: run the whole pipeline once; the callback gets
the accumulated result list on success and only the error on failure
(both captured here by the `Except`), alongside the final store state
and the trace of mutating calls. -/
def handler (s : Store) : Except Err (List Nat) × Store × List Event :=
  processTbLoaderList (getTbLoaderList s) s

/-! ## Concrete scenario inputs -/

/-- A store whose only object under the loader prefix fails the naming
pattern. -/
def junkStore : Store :=
  ⟨[("log/tbcd1234/junk.txt", "x")], [], [], [], false⟩

/-- The spec's end-to-end scenario store: two fragments for
`tbcd1234`, no prior artifact, no injected failures. -/
def scenarioStore : Store :=
  ⟨[("log/tbcd1234/20210730T131711.123Z.log", "hello"),
    ("log/tbcd1234/20210730T140000Z.log", "world\n")], [], [], [], false⟩

/-- Two day groups for one loader; the write of the second day's
consolidated key is made to fail. -/
def twoDayFailStore : Store :=
  ⟨[("log/tbcd1234/20210730T000000.000Z.log", "a"),
    ("log/tbcd1234/20210731T000000.000Z.log", "b")], [], [],
   ["log/2021/07/tbcd1234-31.log"], false⟩

/-- Two day groups for one loader, no failures. -/
def twoDayStore : Store :=
  ⟨[("log/tbcd1234/20210730T000000.000Z.log", "a"),
    ("log/tbcd1234/20210731T000000.000Z.log", "b")], [], [], [], false⟩

/-- A store whose only key sits in a sub-prefix of the loader prefix:
the loader is enumerated but its fragment listing is empty. -/
def nestedKeyStore : Store :=
  ⟨[("log/tbcd1234/a/b.log", "x")], [], [], [], false⟩

/-- A single empty fragment. -/
def emptyFragmentStore : Store :=
  ⟨[("log/tbcd1234/20210730T131711.123Z.log", "")], [], [], [], false⟩

/-- One fragment plus a prior consolidated artifact whose content lacks
a trailing newline. -/
def priorNoNewlineStore : Store :=
  ⟨[("log/tbcd1234/20210730T131711.123Z.log", "hello"),
    ("log/2021/07/tbcd1234-30.log", "previous")], [], [], [], false⟩

/-- The day group for `tbcd1234`, 2021-07-30, with the single
fractional-timestamp fragment as member. -/
def day30Group : DailyLogInfo :=
  ⟨"2021", "07", "30", ["log/tbcd1234/20210730T131711.123Z.log"],
   "tbcd1234", "log/2021/07/tbcd1234-30.log"⟩

/-! ## Claim theorems: concrete counterexamples and code-bug runs -/

/-- C1: the claim says a listed key failing the naming pattern is in no
DayGroup and is never included in a delete request.  The first half
holds, but `processTbLoader` deletes `keysToRemove`, the **full**
listing: running the pipeline on a store whose only key is the
non-matching `log/tbcd1234/junk.txt` produces a batch delete request
containing exactly that key (and no group, no write). -/
theorem c1_nonmatching_key_deleted :
    parseLogName "log/tbcd1234/junk.txt" = none ∧
    partitionByDays ["log/tbcd1234/junk.txt"] = [] ∧
    handler junkStore =
      (.ok [0], ⟨[], [], [], [], false⟩,
       [Event.deleteObjects ["log/tbcd1234/junk.txt"]]) := by
  refine ⟨rfl, rfl, ?_⟩
  rfl

/-- C2: in the spec's end-to-end scenario the code does **not** write
`"hello\nworld\n"`: the key `log/tbcd1234/20210730T140000Z.log` fails
the regex (the fractional seconds inside `(\d{6}(\.\d{3,6}))?` are
mandatory once the six time digits are present), so only `"hello\n"`
is written — and both fragment keys are nevertheless deleted,
discarding `"world\n"` unmerged. -/
theorem c2_scenario_diverges :
    parseLogName "log/tbcd1234/20210730T140000Z.log" = none ∧
    handler scenarioStore =
      (.ok [0], ⟨[("log/2021/07/tbcd1234-30.log", "hello\n")], [], [], [], false⟩,
       [Event.put "log/2021/07/tbcd1234-30.log" "hello\n",
        Event.deleteObjects ["log/tbcd1234/20210730T131711.123Z.log",
                             "log/tbcd1234/20210730T140000Z.log"]]) ∧
    Event.put "log/2021/07/tbcd1234-30.log" "hello\nworld\n" ∉
      (handler scenarioStore).2.2 := by
  refine ⟨rfl, by rfl, by decide⟩

/-- C3 counterexample: with two day groups where the first write
succeeds and the second fails, the run ends in the second write's error
with exactly two put calls and **no** delete call — although the first
group's write succeeded (its artifact is committed), its member keys
are never deleted, refuting the claimed "deleted iff that group's
write succeeded". -/
theorem c3_first_group_write_committed_but_not_deleted :
    handler twoDayFailStore =
      (.error (Err.putError "log/2021/07/tbcd1234-31.log"),
       ⟨[("log/2021/07/tbcd1234-30.log", "a\n"),
         ("log/tbcd1234/20210730T000000.000Z.log", "a"),
         ("log/tbcd1234/20210731T000000.000Z.log", "b")], [], [],
        ["log/2021/07/tbcd1234-31.log"], false⟩,
       [Event.put "log/2021/07/tbcd1234-30.log" "a\n",
        Event.put "log/2021/07/tbcd1234-31.log" "b\n"]) ∧
    (handler twoDayFailStore).2.1.objects.lookup "log/2021/07/tbcd1234-30.log"
      = some "a\n" := by
  exact ⟨by rfl, by rfl⟩

/-- C4 counterexample: the partitioner keys runs only on the parsed
**date** (`parse[2]`), not on `(sourceId, date)`: two keys of distinct
loaders with the same date (contiguous, as the claim requires) land in
one single DayGroup, whose `tb` is taken from the first key — so the
groups do not partition the matching input by `(sourceId, date)`. -/
theorem c4_two_sources_one_group :
    partitionByDays ["log/tbcdAAAA/20210730T000000.000Z.log",
                     "log/tbcdBBBB/20210730T000000.000Z.log"] =
      [⟨"2021", "07", "30",
        ["log/tbcdAAAA/20210730T000000.000Z.log",
         "log/tbcdBBBB/20210730T000000.000Z.log"],
        "tbcdAAAA", "log/2021/07/tbcdAAAA-30.log"⟩] ∧
    parseLogName "log/tbcdBBBB/20210730T000000.000Z.log" =
      some ⟨"tbcdBBBB", "20210730", "2021", "07", "30"⟩ ∧
    ("tbcdBBBB" : String) ≠ "tbcdAAAA" := by
  exact ⟨by rfl, by rfl, by decide⟩

/-- C5 counterexample: a fragment whose stored content is the empty
string is fetched successfully and resolves to `""` — the falsy check
`if (logData && ...)` skips the newline fixup — so not every fragment's
content entering the concatenation ends with a line terminator. -/
theorem c5_empty_fragment_no_terminator :
    walkListWithPromises day30Group.logKeys (readFile emptyFragmentStore) =
      .ok [""] ∧
    readLogsForDay emptyFragmentStore day30Group = .ok "" ∧
    ("" : String).data.getLast? ≠ some '\n' := by
  exact ⟨by rfl, by rfl, by decide⟩

/-- C6 counterexample: the prior artifact is read through `readFile`,
which appends a newline to content lacking one, so with prior content
`P = "previous"` and batch content `N = "hello\n"` the code writes
`"previous\nhello\n"`, which is not `P + N`. -/
theorem c6_prior_newline_appended :
    priorNoNewlineStore.objects.lookup "log/2021/07/tbcd1234-30.log"
      = some "previous" ∧
    readLogsForDay priorNoNewlineStore day30Group = .ok "hello\n" ∧
    (consolidateDailyLog day30Group priorNoNewlineStore).2.2 =
      [Event.put "log/2021/07/tbcd1234-30.log" "previous\nhello\n"] ∧
    ("previous\nhello\n" : String) ≠ "previous" ++ "hello\n" := by
  exact ⟨by rfl, by rfl, by rfl, by decide⟩

/-- C7 counterexample: a successful run over one loader with two
processed DayGroups returns `[0]` — a single per-loader entry (the
`removeLogItems` result), not a list of the processed DayGroup
summaries, whose count is 2. -/
theorem c7_result_not_group_summaries :
    (handler twoDayStore).1 = .ok [0] ∧
    (partitionByDays (getLogFileList twoDayStore "log/tbcd1234/")).length = 2 ∧
    ([0] : List Nat).length ≠ 2 := by
  exact ⟨by rfl, by rfl, by decide⟩

/-- C9 counterexample: a loader enumerated from a nested key has an
empty fragment listing, yet the pipeline still issues a (vacuous) batch
delete call — the claimed "no put and no delete calls" fails. -/
theorem c9_empty_listing_delete_call :
    getTbLoaderList nestedKeyStore = ["log/tbcd1234/"] ∧
    getLogFileList nestedKeyStore "log/tbcd1234/" = [] ∧
    handler nestedKeyStore = (.ok [0], nestedKeyStore, [Event.deleteObjects []]) ∧
    (handler nestedKeyStore).2.2 ≠ [] := by
  exact ⟨by rfl, by rfl, by rfl, by decide⟩

/-! ## Generic facts about the sequential walker -/

/-- A successful walk returns one result per processed unit. -/
theorem walkListSt_length {α β : Type}
    (fn : α → Store → Except Err β × Store × List Event) :
    ∀ (l : List α) (s : Store) (rs : List β) (s' : Store) (ev : List Event),
      walkListSt fn l s = (.ok rs, s', ev) → rs.length = l.length := by
  intro l
  induction l with
  | nil =>
    intro s rs s' ev h
    simp only [walkListSt, Prod.mk.injEq, Except.ok.injEq] at h
    simp [← h.1]
  | cons x xs ih =>
    intro s rs s' ev h
    simp only [walkListSt] at h
    split at h
    · simp at h
    · split at h
      · next bs s2 ev2 heq =>
        simp only [Prod.mk.injEq, Except.ok.injEq] at h
        obtain ⟨h1, _, _⟩ := h
        subst h1
        simp [ih _ _ _ _ heq]
      · simp at h

/-- Every result of a successful walk satisfies any property that `fn`
guarantees of its successful results. -/
theorem walkListSt_results {α β : Type}
    (fn : α → Store → Except Err β × Store × List Event) (P : β → Prop)
    (hfn : ∀ a s b s1 ev, fn a s = (.ok b, s1, ev) → P b) :
    ∀ (l : List α) (s : Store) (rs : List β) (s' : Store) (ev : List Event),
      walkListSt fn l s = (.ok rs, s', ev) → ∀ r ∈ rs, P r := by
  intro l
  induction l with
  | nil =>
    intro s rs s' ev h
    simp only [walkListSt, Prod.mk.injEq, Except.ok.injEq] at h
    simp [← h.1]
  | cons x xs ih =>
    intro s rs s' ev h
    simp only [walkListSt] at h
    split at h
    · simp at h
    · next b s1 ev1 heq1 =>
      split at h
      · next bs s2 ev2 heq =>
        simp only [Prod.mk.injEq, Except.ok.injEq] at h
        obtain ⟨h1, _, _⟩ := h
        subst h1
        intro r hr
        rcases List.mem_cons.1 hr with hr | hr
        · exact hr ▸ hfn x s b s1 ev1 heq1
        · exact ih _ _ _ _ heq r hr
      · simp at h

/-- Every event the walk emits (on success or failure) was emitted by
some call of `fn`. -/
theorem walkListSt_events {α β : Type}
    (fn : α → Store → Except Err β × Store × List Event) (Q : Event → Prop)
    (hfn : ∀ a s, ∀ e ∈ (fn a s).2.2, Q e) :
    ∀ (l : List α) (s : Store), ∀ e ∈ (walkListSt fn l s).2.2, Q e := by
  intro l
  induction l with
  | nil => intro s e he; simp [walkListSt] at he
  | cons x xs ih =>
    intro s e he
    simp only [walkListSt] at he
    split at he
    · next e1 s1 ev1 heq =>
      apply hfn x s
      rw [heq]
      exact he
    · next b s1 ev1 heq =>
      split at he
      · next bs s2 ev2 heq2 =>
        simp only [List.mem_append] at he
        rcases he with he | he
        · exact hfn x s e (by rw [heq]; exact he)
        · exact ih s1 e (by rw [heq2]; exact he)
      · next e2 s2 ev2 heq2 =>
        simp only [List.mem_append] at he
        rcases he with he | he
        · exact hfn x s e (by rw [heq]; exact he)
        · exact ih s1 e (by rw [heq2]; exact he)

/-- C8: the sequential runner `walkListWithPromises` processes units in
list order, one at a time; when a unit fails after a successful prefix,
the walk over the whole list surfaces exactly that error, the store and
event trace retain exactly the work committed by the prefix and the
failing unit, and the suffix `ys` is never started (the outcome is
independent of `ys`). -/
theorem c8_failfast_sequential {α β : Type}
    (fn : α → Store → Except Err β × Store × List Event)
    (xs : List α) (x : α) (ys : List α) (s : Store) (bs : List β)
    (s1 : Store) (ev1 : List Event) (e : Err) (s2 : Store) (ev2 : List Event)
    (hpre : walkListSt fn xs s = (.ok bs, s1, ev1))
    (hx : fn x s1 = (.error e, s2, ev2)) :
    walkListSt fn (xs ++ x :: ys) s = (.error e, s2, ev1 ++ ev2) := by
  induction xs generalizing s bs ev1 with
  | nil =>
    simp only [walkListSt, Prod.mk.injEq, Except.ok.injEq] at hpre
    obtain ⟨h1, h2, h3⟩ := hpre
    subst h2
    simp only [List.nil_append, walkListSt, hx, ← h3, List.nil_append]
  | cons a as ih =>
    simp only [walkListSt] at hpre ⊢
    split at hpre
    · simp at hpre
    · next b sa eva heq =>
      split at hpre
      · next bs2 s12 ev12 heq2 =>
        simp only [Prod.mk.injEq, Except.ok.injEq] at hpre
        obtain ⟨h1, h2, h3⟩ := hpre
        subst h2 h3
        simp only [List.append_eq]
        rw [ih sa bs2 ev12 heq2]
        simp [List.append_assoc]
      · simp at hpre

/-- Store used to instantiate the C8 fail-fast theorem. -/
def c8Store : Store := ⟨[], [], [], ["kb"], false⟩

/-- Witness for C8 at a concrete work list: the middle unit's put
fails, the first unit's put is committed, the third unit is never
reached. -/
theorem c8_failfast_sequential_witness :
    walkListSt (fun (k : String) (s : Store) => putObject s k "z")
      ["ka", "kb", "kc"] c8Store =
      (.error (Err.putError "kb"), ⟨[("ka", "z")], [], [], ["kb"], false⟩,
       [Event.put "ka" "z", Event.put "kb" "z"]) := by
  exact c8_failfast_sequential (fun k s => putObject s k "z")
    ["ka"] "kb" ["kc"] c8Store [()] ⟨[("ka", "z")], [], [], ["kb"], false⟩
    [Event.put "ka" "z"] (Err.putError "kb") ⟨[("ka", "z")], [], [], ["kb"], false⟩
    [Event.put "kb" "z"] (by rfl) (by rfl)

/-! ## Facts about readFile and the pure walker -/

theorem getLast_append_newline (x : String) :
    (x ++ "\n").data.getLast? = some '\n' := by
  rw [String.data_append]
  exact List.getLast?_concat _

/-- Content successfully resolved by `readFile` is empty or
newline-terminated. -/
theorem readFile_ok_shape (s : Store) (k c : String)
    (h : readFile s k = .ok c) : c = "" ∨ c.data.getLast? = some '\n' := by
  unfold readFile at h
  split at h
  · simp at h
  · split at h
    · right
      simp only [Except.ok.injEq] at h
      subst h
      exact getLast_append_newline _
    · simp only [Except.ok.injEq] at h
      subst h
      unfold ensureNewline
      split
      · next hb => exact Or.inl (eq_of_beq hb)
      · split
        · next hb => exact Or.inr (eq_of_beq hb)
        · exact Or.inr (getLast_append_newline _)

theorem walkListWithPromises_ok_mem {α β : Type} (fn : α → Except Err β) :
    ∀ (l : List α) (rs : List β), walkListWithPromises l fn = .ok rs →
      ∀ r ∈ rs, ∃ a ∈ l, fn a = .ok r := by
  intro l
  induction l with
  | nil =>
    intro rs h r hr
    simp only [walkListWithPromises, Except.ok.injEq] at h
    subst h
    simp at hr
  | cons x xs ih =>
    intro rs h r hr
    simp only [walkListWithPromises] at h
    split at h
    · simp at h
    · next b heq =>
      split at h
      · simp at h
      · next bs heq2 =>
        simp only [Except.ok.injEq] at h
        subst h
        rcases List.mem_cons.1 hr with hr | hr
        · exact ⟨x, List.mem_cons_self x xs, hr ▸ heq⟩
        · obtain ⟨a, ha, hfa⟩ := ih bs heq2 r hr
          exact ⟨a, List.mem_cons_of_mem x ha, hfa⟩

theorem walkListWithPromises_all_ok {α β : Type} (fn : α → Except Err β) :
    ∀ l : List α, (∀ a ∈ l, ∃ b, fn a = .ok b) →
      ∃ rs, walkListWithPromises l fn = .ok rs := by
  intro l
  induction l with
  | nil => exact fun _ => ⟨[], rfl⟩
  | cons x xs ih =>
    intro hall
    obtain ⟨b, hb⟩ := hall x (List.mem_cons_self x xs)
    obtain ⟨rs, hrs⟩ := ih (fun a ha => hall a (List.mem_cons_of_mem x ha))
    exact ⟨b :: rs, by simp only [walkListWithPromises, hb, hrs]⟩

/-! ## Event traces of the merger steps -/

theorem putObject_events (s : Store) (k b : String) :
    (putObject s k b).2.2 = [Event.put k b] := by
  unfold putObject
  split <;> rfl

/-- `priorLog || ''` is the identity on strings (only `''` is falsy
among the values that reach it). -/
theorem priorOr_self (p log : String) :
    (if p == "" then "" else p) ++ log = p ++ log := by
  split
  · next hb => rw [eq_of_beq hb]
  · rfl

theorem writeConsolidatedLog_events (s : Store) (g : DailyLogInfo)
    (log priorLog : String) :
    (writeConsolidatedLog s g log priorLog).2.2 =
      [Event.put g.key (priorLog ++ log)] := by
  unfold writeConsolidatedLog
  rcases hp : putObject s g.key ((if priorLog == "" then "" else priorLog) ++ log)
    with ⟨r, s1, ev⟩
  have hev : ev = [Event.put g.key ((if priorLog == "" then "" else priorLog) ++ log)] := by
    have h0 := putObject_events s g.key ((if priorLog == "" then "" else priorLog) ++ log)
    rw [hp] at h0
    exact h0
  cases r <;> simp [hev] <;> split <;> simp_all

theorem consolidateDailyLog_events (g : DailyLogInfo) (s : Store) :
    ∀ e ∈ (consolidateDailyLog g s).2.2, ∃ k b, e = Event.put k b := by
  intro e he
  unfold consolidateDailyLog at he
  split at he
  · simp at he
  · split at he
    · simp at he
    · rw [writeConsolidatedLog_events] at he
      simp only [List.mem_singleton] at he
      exact ⟨_, _, he⟩

theorem removeLogItems_events (l : List String) (s : Store) :
    (removeLogItems l s).2.2 = [Event.deleteObjects l] := by
  unfold removeLogItems deleteObjects
  cases hd : s.deleteErrors <;> simp [hd]

/-! ## readPriorConsolidation equations -/

theorem readPriorConsolidation_absent (s : Store) (g : DailyLogInfo)
    (hget : s.getErrors.contains g.key = false)
    (hobj : s.objects.lookup g.key = none) :
    readPriorConsolidation s g = .ok "" := by
  unfold readPriorConsolidation readFile getObject
  rw [hget, hobj]
  simp

theorem readPriorConsolidation_present (s : Store) (g : DailyLogInfo) (P : String)
    (hget : s.getErrors.contains g.key = false)
    (hobj : s.objects.lookup g.key = some P)
    (hdec : s.decodeErrors.lookup g.key = none) :
    readPriorConsolidation s g = .ok (ensureNewline P) := by
  unfold readPriorConsolidation readFile getObject
  rw [hget, hobj, hdec]
  simp

theorem readPriorConsolidation_get_error (s : Store) (g : DailyLogInfo)
    (hget : s.getErrors.contains g.key = true) :
    readPriorConsolidation s g = .error (.getError g.key) := by
  unfold readPriorConsolidation readFile getObject
  rw [hget]
  simp

/-! ## Claim theorems: C5, C6, C10 -/

/-- C5 (amended): for a DayGroup whose member fetches all succeed, the
concatenated `log` equals the fetched fragment contents joined in
`logKeys` order, where every fragment's content either ends in a line
terminator or is empty (a newline is appended to non-empty content
lacking one; empty content — being falsy — is left empty). -/
theorem c5_join_order_and_terminators (s : Store) (g : DailyLogInfo)
    (contents : List String)
    (h : walkListWithPromises g.logKeys (readFile s) = .ok contents) :
    readLogsForDay s g = .ok (String.join contents) ∧
      ∀ c ∈ contents, c = "" ∨ c.data.getLast? = some '\n' := by
  constructor
  · unfold readLogsForDay
    rw [h]
  · intro c hc
    obtain ⟨a, _, hfa⟩ := walkListWithPromises_ok_mem (readFile s) g.logKeys contents h c hc
    exact readFile_ok_shape s a c hfa

/-- A store with one non-empty fragment, used as witness input. -/
def simpleStore : Store :=
  ⟨[("log/tbcd1234/20210730T131711.123Z.log", "hello")], [], [], [], false⟩

/-- Witness for C5's amended theorem at a concrete group. -/
theorem c5_join_order_and_terminators_witness :
    readLogsForDay simpleStore day30Group = .ok (String.join ["hello\n"]) ∧
      ∀ c ∈ ["hello\n"], c = "" ∨ c.data.getLast? = some '\n' :=
  c5_join_order_and_terminators simpleStore day30Group ["hello\n"] (by rfl)

/-- C6 (amended): with batch content `N` and no decode-failure on the
consolidated key, the merge behaves as follows.  If the artifact is
absent, the group is not failed and exactly `N` is written (prior
treated as empty).  If the artifact holds `P`, the written body is
`ensureNewline P ++ N` — the prior content is passed through
`readFile`, which appends a newline to non-empty content lacking one —
prior content first, never `N` alone and never `N` before `P`.  Any
other fetch error on the prior artifact fails the group. -/
theorem c6_prior_precedence (s : Store) (g : DailyLogInfo) (log : String)
    (hN : readLogsForDay s g = .ok log)
    (hdec : s.decodeErrors.lookup g.key = none) :
    (s.getErrors.contains g.key = false → s.objects.lookup g.key = none →
       consolidateDailyLog g s = writeConsolidatedLog s g log "" ∧
       (consolidateDailyLog g s).2.2 = [Event.put g.key log]) ∧
    (∀ P, s.getErrors.contains g.key = false → s.objects.lookup g.key = some P →
       (consolidateDailyLog g s).2.2 =
         [Event.put g.key (ensureNewline P ++ log)]) ∧
    (s.getErrors.contains g.key = true →
       consolidateDailyLog g s = (.error (Err.getError g.key), s, [])) := by
  refine ⟨?_, ?_, ?_⟩
  · intro hget hobj
    have hpc := readPriorConsolidation_absent s g hget hobj
    constructor
    · unfold consolidateDailyLog
      rw [hN, hpc]
    · unfold consolidateDailyLog
      rw [hN, hpc]
      rw [writeConsolidatedLog_events]
      rfl
  · intro P hget hobj
    have hpc := readPriorConsolidation_present s g P hget hobj hdec
    unfold consolidateDailyLog
    rw [hN, hpc, writeConsolidatedLog_events]
  · intro hget
    have hpc := readPriorConsolidation_get_error s g hget
    unfold consolidateDailyLog
    rw [hN, hpc]

/-- Witness for C6's amended theorem: with prior `"previous"` and batch
`"hello\n"`, the written body is `ensureNewline "previous" ++ "hello\n"
= "previous\nhello\n"`. -/
theorem c6_prior_precedence_witness :
    (consolidateDailyLog day30Group priorNoNewlineStore).2.2 =
      [Event.put day30Group.key (ensureNewline "previous" ++ "hello\n")] :=
  (c6_prior_precedence priorNoNewlineStore day30Group "hello\n"
    (by rfl) (by rfl)).2.1 "previous" (by rfl) (by rfl)

/-- C10: when the store fetch succeeds, `readFile` always resolves;
if decoding the body throws, it resolves with the synthesized
newline-terminated exception line, and a group whose member fetches
all succeed always gets its concatenated log (no abort from
decoding). -/
theorem c10_decode_failure_resolves (s : Store) (key body : String)
    (hget : getObject s key = .ok body) :
    (∃ c, readFile s key = .ok c) ∧
    (∀ ex, s.decodeErrors.lookup key = some ex →
       readFile s key = .ok ("Exception reading log (" ++ key ++ "): " ++ ex ++ "\n")) ∧
    (∀ g : DailyLogInfo, (∀ k ∈ g.logKeys, ∃ b, getObject s k = .ok b) →
       ∃ l, readLogsForDay s g = .ok l) := by
  refine ⟨?_, ?_, ?_⟩
  · unfold readFile
    rw [hget]
    rcases hd : s.decodeErrors.lookup key with _ | ex
    · exact ⟨_, rfl⟩
    · exact ⟨_, rfl⟩
  · intro ex hex
    unfold readFile
    rw [hget, hex]
  · intro g hall
    have hfiles : ∀ k ∈ g.logKeys, ∃ b, readFile s k = .ok b := by
      intro k hk
      obtain ⟨b, hb⟩ := hall k hk
      unfold readFile
      rw [hb]
      rcases hd : s.decodeErrors.lookup k with _ | ex
      · exact ⟨_, rfl⟩
      · exact ⟨_, rfl⟩
    obtain ⟨rs, hrs⟩ := walkListWithPromises_all_ok (readFile s) g.logKeys hfiles
    refine ⟨String.join rs, ?_⟩
    unfold readLogsForDay
    rw [hrs]

/-- A store whose only object decodes with an exception. -/
def decodeErrStore : Store :=
  ⟨[("log/tbcd1234/x.log", "zz")], [], [("log/tbcd1234/x.log", "boom")], [], false⟩

/-- Witness for C10: the decode failure resolves to the synthesized
line instead of rejecting. -/
theorem c10_decode_failure_resolves_witness :
    readFile decodeErrStore "log/tbcd1234/x.log" =
      .ok ("Exception reading log (" ++ "log/tbcd1234/x.log" ++ "): " ++ "boom" ++ "\n") :=
  (c10_decode_failure_resolves decodeErrStore "log/tbcd1234/x.log" "zz"
    (by rfl)).2.1 "boom" (by rfl)

/-! ## processTbLoader facts -/

theorem removeLogItems_ok_res (l : List String) (s : Store) (n : Nat) (s' : Store)
    (ev : List Event) (h : removeLogItems l s = (.ok n, s', ev)) : n = 0 := by
  unfold removeLogItems deleteObjects at h
  cases hd : s.deleteErrors <;> rw [hd] at h <;> simp at h
  omega

theorem processTbLoader_ok_res (t : String) (s : Store) (n : Nat) (s' : Store)
    (ev : List Event) (h : processTbLoader t s = (.ok n, s', ev)) : n = 0 := by
  simp only [processTbLoader] at h
  split at h
  · simp at h
  · rcases hr : removeLogItems (getLogFileList s t) _ with ⟨r, s2, ev2⟩
    rw [hr] at h
    simp only [Prod.mk.injEq] at h
    obtain ⟨h1, _, _⟩ := h
    rw [h1] at hr
    exact removeLogItems_ok_res _ _ _ _ _ hr

/-- C3 (amended): for each loader, member fragment keys are deleted if
and only if **every** DayGroup write for that loader succeeded, in one
batch delete of the full listing after all groups; if any group's
write fails, the consolidation error is surfaced, every emitted call
is a put, and zero delete calls are issued. -/
theorem c3_delete_iff_all_writes (tbcd : String) (s : Store) :
    (∀ e s1 ev, consolidateDailyLogs (partitionByDays (getLogFileList s tbcd)) s
        = (.error e, s1, ev) →
      processTbLoader tbcd s = (.error e, s1, ev) ∧
        ∀ ev0 ∈ ev, ∃ k b, ev0 = Event.put k b) ∧
    (∀ rs s1 ev, consolidateDailyLogs (partitionByDays (getLogFileList s tbcd)) s
        = (.ok rs, s1, ev) →
      (processTbLoader tbcd s).2.2 =
        ev ++ [Event.deleteObjects (getLogFileList s tbcd)]) := by
  constructor
  · intro e s1 ev h
    constructor
    · simp only [processTbLoader]
      rw [h]
    · have hall := walkListSt_events consolidateDailyLog
        (fun e0 => ∃ k b, e0 = Event.put k b) consolidateDailyLog_events
        (partitionByDays (getLogFileList s tbcd)) s
      unfold consolidateDailyLogs at h
      rw [h] at hall
      exact hall
  · intro rs s1 ev h
    simp only [processTbLoader]
    rw [h]
    simp [removeLogItems_events]

/-- Witness for C3's amended theorem: on the two-day store with a
failing second write, `processTbLoader` surfaces the write error with
put-only events (no delete); on the junk store (empty partition), the
single batch delete of the listing follows the (empty) consolidation
trace. -/
theorem c3_delete_iff_all_writes_witness :
    (processTbLoader "log/tbcd1234/" twoDayFailStore =
      (.error (Err.putError "log/2021/07/tbcd1234-31.log"),
       ⟨[("log/2021/07/tbcd1234-30.log", "a\n"),
         ("log/tbcd1234/20210730T000000.000Z.log", "a"),
         ("log/tbcd1234/20210731T000000.000Z.log", "b")], [], [],
        ["log/2021/07/tbcd1234-31.log"], false⟩,
       [Event.put "log/2021/07/tbcd1234-30.log" "a\n",
        Event.put "log/2021/07/tbcd1234-31.log" "b\n"])) ∧
    (processTbLoader "log/tbcd1234/" junkStore).2.2 =
      [] ++ [Event.deleteObjects (getLogFileList junkStore "log/tbcd1234/")] :=
  ⟨((c3_delete_iff_all_writes "log/tbcd1234/" twoDayFailStore).1 _ _ _ (by rfl)).1,
   (c3_delete_iff_all_writes "log/tbcd1234/" junkStore).2 [] junkStore [] (by rfl)⟩

/-- C7 (amended): the no-argument trigger runs the pipeline once; on
success the reported list has one entry per enumerated loader, each
entry being `0` (the `removeLogItems` result) — not a list of DayGroup
summaries; on failure only the first error is surfaced (no partial
result list accompanies it). -/
theorem c7_per_source_zeroes (s : Store) (rs : List Nat)
    (h : (handler s).1 = .ok rs) :
    rs.length = (getTbLoaderList s).length ∧ ∀ r ∈ rs, r = 0 := by
  rcases hh : handler s with ⟨r, s', ev⟩
  rw [hh] at h
  have h1 : r = .ok rs := h
  subst h1
  unfold handler processTbLoaderList at hh
  refine ⟨walkListSt_length processTbLoader _ _ _ _ _ hh, ?_⟩
  exact walkListSt_results processTbLoader (fun n => n = 0)
    (fun a s0 b s1 ev1 hp => processTbLoader_ok_res a s0 b s1 ev1 hp)
    _ _ _ _ _ hh

/-- Witness for C7's amended theorem on the scenario store. -/
theorem c7_per_source_zeroes_witness :
    ([0] : List Nat).length = (getTbLoaderList scenarioStore).length ∧
      ∀ r ∈ ([0] : List Nat), r = 0 :=
  c7_per_source_zeroes scenarioStore [0] (by rfl)

/-- C9 (amended): with zero enumerated loaders the pipeline makes no
store calls and returns an empty list; a loader that is enumerated but
has an empty fragment listing produces no put calls but still issues
one batch delete request with an **empty** key list, leaving the store
unchanged. -/
theorem c9_empty_listing_behavior :
    (∀ s : Store, getTbLoaderList s = [] → handler s = (.ok [], s, [])) ∧
    (∀ (s : Store) (tbcd : String), getLogFileList s tbcd = [] →
       s.deleteErrors = false →
       processTbLoader tbcd s = (.ok 0, s, [Event.deleteObjects []])) := by
  constructor
  · intro s h
    unfold handler processTbLoaderList
    rw [h]
    rfl
  · intro s tbcd h hdel
    simp only [processTbLoader]
    rw [h]
    unfold removeLogItems deleteObjects
    have hc : consolidateDailyLogs (partitionByDays []) s = (.ok [], s, []) := rfl
    rw [hc]
    dsimp only
    rw [hdel]
    have hf : s.objects.filter (fun kv => !(([] : List String).contains kv.1))
        = s.objects := List.filter_eq_self.mpr (fun a _ => rfl)
    simp [hf]
    rw [← hdel]

/-- The empty store. -/
def emptyStore : Store := ⟨[], [], [], [], false⟩

/-- Witness for C9's amended theorem: the empty store and the
nested-key store. -/
theorem c9_empty_listing_behavior_witness :
    handler emptyStore = (.ok [], emptyStore, []) ∧
    processTbLoader "log/tbcd1234/" nestedKeyStore =
      (.ok 0, nestedKeyStore, [Event.deleteObjects []]) :=
  ⟨c9_empty_listing_behavior.1 emptyStore (by rfl),
   c9_empty_listing_behavior.2 nestedKeyStore "log/tbcd1234/" (by rfl) (by rfl)⟩

/-! ## The partition invariant -/

/-- The date string `year ++ month ++ day` of a group — the value the
loop keeps in `currentDate` while the group is open. -/
def dateStr (g : DailyLogInfo) : String := g.year ++ g.month ++ g.day

/-- Well-formedness of a produced group: the date fields have the
regex's widths and every member key parses to the group's date. -/
def GroupOk (g : DailyLogInfo) : Prop :=
  g.year.length = 4 ∧ g.month.length = 2 ∧ g.day.length = 2 ∧
  ∀ k ∈ g.logKeys, ∃ p, parseLogName k = some p ∧
    p.year = g.year ∧ p.month = g.month ∧ p.day = g.day

/-- Adjacent groups carry different dates. -/
def dayChain (l : List DailyLogInfo) : Prop :=
  List.Chain' (fun g1 g2 => dateStr g1 ≠ dateStr g2) l

/-- A successful parse always satisfies `date = year ++ month ++ day`
with the fixed widths 4, 2, 2. -/
theorem parseLogName_shape (key : String) (p : LogParse)
    (h : parseLogName key = some p) :
    p.date = p.year ++ p.month ++ p.day ∧
    p.year.length = 4 ∧ p.month.length = 2 ∧ p.day.length = 2 := by
  unfold parseLogName at h
  split at h
  · split at h
    · simp only [Option.some.injEq] at h
      subst h
      exact ⟨rfl, rfl, rfl, rfl⟩
    · simp at h
  · simp at h

/-- Splitting a concatenation of three strings of matching widths. -/
theorem string_concat_inj3 (a b c a' b' c' : String)
    (h : a ++ b ++ c = a' ++ b' ++ c')
    (ha : a.length = a'.length) (hb : b.length = b'.length) :
    a = a' ∧ b = b' ∧ c = c' := by
  have hd : (a.data ++ b.data) ++ c.data = (a'.data ++ b'.data) ++ c'.data := by
    have h0 := congrArg String.data h
    simpa [String.data_append] using h0
  have hab : a.data.length = a'.data.length := ha
  have hbb : b.data.length = b'.data.length := hb
  obtain ⟨h1, h2⟩ := List.append_inj hd (by simp [List.length_append, hab, hbb])
  obtain ⟨h3, h4⟩ := List.append_inj h1 hab
  exact ⟨String.ext h3, String.ext h4, String.ext h2⟩

theorem dayChain_replace_last (acc : List DailyLogInfo) (g g' : DailyLogInfo)
    (hdate : dateStr g' = dateStr g) (h : dayChain (acc ++ [g])) :
    dayChain (acc ++ [g']) := by
  rw [dayChain, List.chain'_append] at h ⊢
  obtain ⟨h1, _, h3⟩ := h
  refine ⟨h1, List.chain'_singleton g', fun x hx y hy => ?_⟩
  simp only [List.head?_cons, Option.mem_def, Option.some.injEq] at hy
  subst hy
  rw [hdate]
  exact h3 x hx g (by simp)

theorem dayChain_snoc (l : List DailyLogInfo) (g : DailyLogInfo)
    (h : dayChain l) (hlast : ∀ x ∈ l.getLast?, dateStr x ≠ dateStr g) :
    dayChain (l ++ [g]) := by
  rw [dayChain, List.chain'_append]
  refine ⟨h, List.chain'_singleton g, fun x hx y hy => ?_⟩
  simp only [List.head?_cons, Option.mem_def, Option.some.injEq] at hy
  subst hy
  exact hlast x hx

/-- The loop invariant of `partitionByDays`: starting from a state in
which the open group (if any) matches `currentDate` and is well-formed,
the finished output (i) concatenates, in order, exactly the
pattern-matching input keys into the groups' member lists, (ii) yields
only well-formed groups, and (iii) gives adjacent groups distinct
dates. -/
theorem partitionGo_spec :
    ∀ (logs : List String) (cd : Option String) (cur : Option DailyLogInfo)
      (acc : List DailyLogInfo),
      (cur = none → acc = [] ∧ cd = none) →
      (∀ g, cur = some g → cd = some (dateStr g) ∧ GroupOk g) →
      (∀ g ∈ acc, GroupOk g) →
      dayChain (acc ++ cur.toList) →
      (((partitionGo cd cur acc logs).map (fun g => g.logKeys)).flatten
          = ((acc ++ cur.toList).map (fun g => g.logKeys)).flatten
            ++ logs.filter (fun k => (parseLogName k).isSome)) ∧
      (∀ g ∈ partitionGo cd cur acc logs, GroupOk g) ∧
      dayChain (partitionGo cd cur acc logs) := by
  intro logs
  induction logs with
  | nil =>
    intro cd cur acc h1 h2 h3 h4
    simp only [partitionGo, List.filter_nil, List.append_nil]
    refine ⟨trivial, ?_, h4⟩
    intro g hg
    rcases List.mem_append.1 hg with hg | hg
    · exact h3 g hg
    · rcases cur with _ | g0
      · simp at hg
      · simp only [Option.toList_some, List.mem_singleton] at hg
        subst hg
        exact (h2 g rfl).2
  | cons item rest ih =>
    intro cd cur acc h1 h2 h3 h4
    simp only [partitionGo]
    cases hp : parseLogName item with
    | none =>
      simp only [hp, List.filter_cons, Option.isSome_none, Bool.false_eq_true, if_false]
      exact ih cd cur acc h1 h2 h3 h4
    | some p =>
      have hshape := parseLogName_shape item p hp
      obtain ⟨hpd, hp4, hpm, hpdd⟩ := hshape
      simp only [hp, List.filter_cons, Option.isSome_some, if_true]
      by_cases hcd : cd = some p.date
      · rw [if_pos hcd]
        cases cur with
        | none =>
          obtain ⟨-, hcdn⟩ := h1 rfl
          rw [hcdn] at hcd
          exact absurd hcd (by simp)
        | some g =>
          obtain ⟨hcdg, hgok⟩ := h2 g rfl
          obtain ⟨hgy, hgm, hgd, hgmem⟩ := hgok
          have hdate : p.date = dateStr g := by
            rw [hcdg] at hcd
            exact (Option.some.injEq _ _ ▸ hcd).symm
          have hsplit : p.year = g.year ∧ p.month = g.month ∧ p.day = g.day := by
            have h0 : p.year ++ p.month ++ p.day = g.year ++ g.month ++ g.day := by
              rw [← hpd, hdate, dateStr]
            exact string_concat_inj3 _ _ _ _ _ _ h0
              (by rw [hp4, hgy]) (by rw [hpm, hgm])
          simp only [Option.map_some']
          have happ := ih cd
            (some (⟨g.year, g.month, g.day, g.logKeys ++ [item], g.tb, g.key⟩ : DailyLogInfo))
            acc
            (fun hno => nomatch hno)
            (fun g0 hg0 => by
              injection hg0 with hg0
              subst hg0
              refine ⟨hcdg, hgy, hgm, hgd, ?_⟩
              intro k hk
              rcases List.mem_append.1 hk with hk | hk
              · exact hgmem k hk
              · simp only [List.mem_singleton] at hk
                subst hk
                exact ⟨p, hp, hsplit.1, hsplit.2.1, hsplit.2.2⟩)
            h3
            (dayChain_replace_last acc g _ rfl h4)
          obtain ⟨he, hok, hch⟩ := happ
          refine ⟨?_, hok, hch⟩
          rw [he]
          simp [List.map_append, List.flatten_append, List.append_assoc]
      · rw [if_neg hcd]
        cases cur with
        | none =>
          obtain ⟨hacc, hcdn⟩ := h1 rfl
          subst hacc
          have happ := ih (some p.date)
            (some (⟨p.year, p.month, p.day, [item], p.tb,
               "log/" ++ p.year ++ "/" ++ p.month ++ "/" ++ p.tb ++ "-" ++ p.day ++ ".log"⟩ :
               DailyLogInfo))
            ([] ++ (none : Option DailyLogInfo).toList)
            (fun hno => nomatch hno)
            (fun g0 hg0 => by
              injection hg0 with hg0
              subst hg0
              refine ⟨?_, hp4, hpm, hpdd, ?_⟩
              · rw [hpd]
                rfl
              · intro k hk
                simp only [List.mem_singleton] at hk
                subst hk
                exact ⟨p, hp, rfl, rfl, rfl⟩)
            (fun g0 hg0 => nomatch hg0)
            (by simp [dayChain])
          obtain ⟨he, hok, hch⟩ := happ
          refine ⟨?_, hok, hch⟩
          rw [he]
          simp
        | some g =>
          obtain ⟨hcdg, hgok⟩ := h2 g rfl
          have hnew : dateStr g ≠
              dateStr (⟨p.year, p.month, p.day, [item], p.tb,
                "log/" ++ p.year ++ "/" ++ p.month ++ "/" ++ p.tb ++ "-" ++ p.day ++ ".log"⟩ :
                DailyLogInfo) := by
            intro hcon
            apply hcd
            rw [hcdg, hpd]
            rw [hcon]
            rfl
          have happ := ih (some p.date)
            (some (⟨p.year, p.month, p.day, [item], p.tb,
               "log/" ++ p.year ++ "/" ++ p.month ++ "/" ++ p.tb ++ "-" ++ p.day ++ ".log"⟩ :
               DailyLogInfo))
            (acc ++ [g])
            (fun hno => nomatch hno)
            (fun g0 hg0 => by
              injection hg0 with hg0
              subst hg0
              refine ⟨?_, hp4, hpm, hpdd, ?_⟩
              · rw [hpd]
                rfl
              · intro k hk
                simp only [List.mem_singleton] at hk
                subst hk
                exact ⟨p, hp, rfl, rfl, rfl⟩)
            (fun g0 hg0 => by
              rcases List.mem_append.1 hg0 with hg0 | hg0
              · exact h3 g0 hg0
              · simp only [List.mem_singleton] at hg0
                subst hg0
                exact hgok)
            (by
              apply dayChain_snoc
              · simpa using h4
              · intro x hx
                rw [List.getLast?_concat] at hx
                simp only [Option.mem_def, Option.some.injEq] at hx
                subst hx
                exact hnew)
          obtain ⟨he, hok, hch⟩ := happ
          refine ⟨?_, hok, hch⟩
          simp only [Option.toList_some]
          rw [he]
          simp [List.map_append, List.flatten_append, List.append_assoc]

/-- C4 (amended): the partitioner groups by **date** only: the groups'
member lists concatenate, in order, to exactly the pattern-matching
input keys (each matching key in exactly one group, non-matching keys
in none), every member key parses to its group's date, adjacent groups
have distinct dates — so for inputs whose same-date keys are
contiguous, the groups partition the matching input by date (equal to
`(sourceId, date)` only when all keys share one loader, as in pipeline
use) — and empty input yields empty output. -/
theorem c4_partition_by_date (logs : List String) :
    ((partitionByDays logs).map (fun g => g.logKeys)).flatten
        = logs.filter (fun k => (parseLogName k).isSome) ∧
    (∀ g ∈ partitionByDays logs, ∀ k ∈ g.logKeys,
        ∃ p, parseLogName k = some p ∧
          p.year = g.year ∧ p.month = g.month ∧ p.day = g.day) ∧
    List.Chain' (fun g1 g2 => dateStr g1 ≠ dateStr g2) (partitionByDays logs) ∧
    partitionByDays [] = [] := by
  have h := partitionGo_spec logs none none []
    (fun _ => ⟨rfl, rfl⟩) (fun g hg => nomatch hg) (fun g hg => nomatch hg)
    (by simp [dayChain])
  obtain ⟨he, hok, hch⟩ := h
  refine ⟨?_, ?_, hch, rfl⟩
  · simpa using he
  · intro g hg k hk
    exact (hok g hg).2.2.2 k hk

/-- Witness for C4's amended theorem: on a concrete listing with one
matching and one non-matching key, the groups' members are exactly the
matching keys. -/
theorem c4_partition_by_date_witness :
    ((partitionByDays ["log/tbcd1234/20210730T131711.123Z.log",
                       "log/tbcd1234/junk.txt"]).map (fun g => g.logKeys)).flatten
      = List.filter (fun k => (parseLogName k).isSome)
          ["log/tbcd1234/20210730T131711.123Z.log", "log/tbcd1234/junk.txt"] :=
  (c4_partition_by_date _).1

end StatsLogConsolidation
